import Mathlib

/-!
Shallow embedding of `src/src/main.rs` (an educational Rust program about
generics, traits and lifetimes) together with proofs of the specification's
claims about it.

Conventions of the embedding:
* Rust slices become `List`s; the functions that index `list[0]` (which
  panics on an empty slice in Rust) are embedded as `Option`-returning
  functions where `none` models that failure (`EmptyInputError` in the
  spec's vocabulary).
* `i32` values are embedded as `Int`: the program only compares them, so
  no wraparound behaviour is observable.
* The `Summary` trait becomes a type class whose `summarize` field carries
  the source's default body; `notify` returns the line it would print.
* `main` is embedded as the list of lines it prints, inside `Option` so
  that any out-of-bounds index inside it would surface as `none`.
-/

/-- Embedding of `largest_i32` (main.rs lines 42-53): start from `list[0]`
and scan the whole slice, replacing the running value whenever an element
is strictly greater.  The empty-slice panic of `list[0]` is `none`. -/
def largest_i32 (list : List Int) : Option Int :=
  match list with
  | [] => none
  | x :: _ =>
    some (list.foldl (fun largest item => if largest < item then item else largest) x)

/-- Embedding of `largest_char` (main.rs lines 56-66), same algorithm at
`char`. -/
def largest_char (list : List Char) : Option Char :=
  match list with
  | [] => none
  | x :: _ =>
    some (list.foldl (fun largest item => if largest < item then item else largest) x)

/-- Embedding of the generic `largest_any<T: PartialOrd + Copy>`
(main.rs lines 70-82).  The `PartialOrd` bound becomes an `LT` instance
with decidable strict comparison; `Copy` needs no analogue for pure
values. -/
def largest_any {T : Type} [LT T] [DecidableRel ((· < ·) : T → T → Prop)]
    (list : List T) : Option T :=
  match list with
  | [] => none
  | x :: _ =>
    some (list.foldl (fun largest item => if largest < item then item else largest) x)

/-- Body of the `Summary` trait's provided `summarize` method
(main.rs lines 140-143): the fixed template applied to the result of the
required `summarize_author` operation. -/
def default_summarize {T : Type} (summarize_author : T → String) (self : T) : String :=
  "(Read more from " ++ summarize_author self ++ "...)"

/-- Embedding of the `Summary` trait (main.rs lines 134-144): one required
method `summarize_author` and one provided method `summarize` whose
default is the fixed template. -/
class Summary (T : Type) where
  summarize_author : T → String
  summarize : T → String := default_summarize summarize_author

/-- Embedding of the `Tweet` struct (main.rs lines 161-166). -/
structure Tweet where
  username : String
  content : String
  reply : Bool
  retweet : Bool

/-- Embedding of the `NewsArticle` struct (main.rs lines 147-152).  The
source contains no (uncommented) `impl Summary for NewsArticle`, so no
`Summary` instance is declared for it here. -/
structure NewsArticle where
  headline : String
  location : String
  author : String
  content : String

/-- Embedding of `impl Summary for Tweet` (main.rs lines 168-172): only
`summarize_author` is given, so `summarize` is the trait default. -/
instance : Summary Tweet where
  summarize_author t := "@" ++ t.username

/-- Embedding of `notify` (main.rs lines 184-195): both parameters have
the one generic type `T` bound by `Summary`; the function returns the
single line it prints, built from `summarize` of the first parameter. -/
def notify {T : Type} [Summary T] (item : T) (item2 : T) : String :=
  "Breaking news! " ++ Summary.summarize item

/-- Names for the two struct types the source declares alongside the
`Summary` trait, used to record which of them the source actually gives a
`Summary` implementation. -/
inductive SummaryImplTarget where
  | newsArticle
  | tweet
deriving DecidableEq

/-- Table of the `impl Summary for _` blocks present in the source: the
block for `Tweet` is at main.rs lines 168-172; the block for
`NewsArticle` (main.rs lines 154-158) is commented out, so `NewsArticle`
has no implementation. -/
def hasSummaryImpl : SummaryImplTarget → Bool
  | .newsArticle => false
  | .tweet => true

/-- Embedding of `main` (main.rs lines 9-39) as the list of lines it
prints.  The inline first loop (lines 10-17) indexes `number_list[0]`,
modelled by `head?`; the later calls go through the embedded functions.
A `none` result would model a panic; the `Point` constructions on lines
27-28 print nothing and cannot fail, so they do not appear. -/
def main_printed : Option (List String) := do
  let number_list : List Int := [1, 2, 3, 5, 4]
  let first ← number_list.head?
  let largest :=
    number_list.foldl (fun largest number => if largest < number then number else largest) first
  let number_list : List Int := [102, 34, 6000, 89, 54, 2, 43, 8]
  let number_list2 : List Int := [1, 2, 3, 6, 5, 8, 4, 7]
  let char_list : List Char := ['y', 'm', 'a', 'q']
  let l1 ← largest_i32 number_list
  let l2 ← largest_i32 number_list2
  let l3 ← largest_char char_list
  let tweet := Tweet.mk "horse_ebooks" "of course, as you probably already know, people" false false
  pure ["Largest number in array is " ++ toString largest,
    "Largest number in array is " ++ toString l1,
    "Largest number in array is " ++ toString l2,
    "Largest number in array is " ++ toString l3,
    "1 new tweet: " ++ Summary.summarize tweet]

/-- Claim C2: `max_of` fails exactly on the empty sequence — the empty
input is the only input on which `largest_any` produces the error value,
so the error is raised there and nowhere else. -/
theorem largest_any_none_iff_empty {T : Type} [LT T]
    [DecidableRel ((· < ·) : T → T → Prop)] (l : List T) :
    largest_any l = none ↔ l = [] := by
  cases l with
  | nil => simp [largest_any]
  | cons x xs => simp [largest_any]

/-- Claim C9: the spec's example evaluations hold: a singleton returns its
element, the eight-number example returns 6000, and the four-character
example returns `'y'`. -/
theorem largest_spec_examples :
    largest_i32 [5] = some 5
      ∧ largest_i32 [102, 34, 6000, 89, 54, 2, 43, 8] = some 6000
      ∧ largest_char ['y', 'm', 'a', 'q'] = some 'y' := by
  refine ⟨by decide, by decide, by decide⟩

/-- Claim C10: the concrete variants agree with the generic one: on every
slice of `i32` values `largest_i32` coincides with `largest_any`, and on
every slice of `char` values `largest_char` coincides with
`largest_any`. -/
theorem concrete_variants_agree_with_largest_any :
    (∀ list : List Int, largest_i32 list = largest_any list)
      ∧ ∀ list : List Char, largest_char list = largest_any list := by
  constructor <;> intro list <;> cases list <;> rfl

/-- Claim C6: `notify` returns exactly the line
`"Breaking news! "` followed by `summarize` of its first argument, and
its second argument has no effect on the output. -/
theorem notify_prints_first_summary {T : Type} [Summary T]
    (item item2 item2' : T) :
    notify item item2 = "Breaking news! " ++ Summary.summarize item
      ∧ notify item item2 = notify item item2' :=
  ⟨rfl, rfl⟩

/-- Claim C4: a `Tweet` does not override `summarize`, so for any tweet
whose username is `"horse_ebooks"` the default template applied to its
`@`-prefixed author identifier yields exactly
`"(Read more from @horse_ebooks...)"`. -/
theorem tweet_default_summarize (t : Tweet) (h : t.username = "horse_ebooks") :
    Summary.summarize t = "(Read more from @horse_ebooks...)"
      ∧ Summary.summarize t = default_summarize Summary.summarize_author t := by
  constructor
  · show "(Read more from " ++ ("@" ++ t.username) ++ "...)" = _
    rw [h]
    rfl
  · rfl

/-- Witness for C4 at the concrete tweet built in `main`. -/
theorem tweet_default_summarize_witness :
    Summary.summarize
        (Tweet.mk "horse_ebooks" "of course, as you probably already know, people" false false)
      = "(Read more from @horse_ebooks...)"
      ∧ Summary.summarize
          (Tweet.mk "horse_ebooks" "of course, as you probably already know, people" false false)
        = default_summarize Summary.summarize_author
            (Tweet.mk "horse_ebooks" "of course, as you probably already know, people" false false) :=
  tweet_default_summarize
    (Tweet.mk "horse_ebooks" "of course, as you probably already know, people" false false) rfl

/-- Claim C5 evidence: the source implements `Summary` for `Tweet` but not
for `NewsArticle` — the `impl Summary for NewsArticle` block is commented
out, contradicting both the claim and the source's own comment that the
default `summarize` applies to `NewsArticle`. -/
theorem summary_impl_only_tweet :
    hasSummaryImpl SummaryImplTarget.tweet = true
      ∧ hasSummaryImpl SummaryImplTarget.newsArticle = false :=
  ⟨rfl, rfl⟩

/-- Claim C7: `main` completes without any failing index — every list it
builds is non-empty — and produces exactly its five printed lines, so the
process exits normally (exit code 0). -/
theorem main_prints_five_lines :
    main_printed = some ["Largest number in array is 5",
      "Largest number in array is 6000",
      "Largest number in array is 8",
      "Largest number in array is y",
      "1 new tweet: (Read more from @horse_ebooks...)"] := by
  decide

/-- Unfolding lemma: on a non-empty list the scan folds over the whole
list starting from the head; comparing the head with itself changes
nothing, so the head may be dropped from the fold. -/
theorem largest_any_cons {T : Type} [LT T]
    [DecidableRel ((· < ·) : T → T → Prop)] (c : T) (t : List T) :
    largest_any (c :: t) =
      some (t.foldl (fun largest item => if largest < item then item else largest) c) := by
  simp only [largest_any, List.foldl_cons, ite_self]

/-- Scan invariant over a linear order: the fold result is the initial
value or an element of the list, it dominates the initial value, and it
dominates every element of the list. -/
theorem foldl_max_invariant {T : Type} [LinearOrder T] (xs : List T) :
    ∀ cur : T,
      (xs.foldl (fun largest item => if largest < item then item else largest) cur = cur
          ∨ xs.foldl (fun largest item => if largest < item then item else largest) cur ∈ xs)
        ∧ cur ≤ xs.foldl (fun largest item => if largest < item then item else largest) cur
        ∧ ∀ a ∈ xs,
            a ≤ xs.foldl (fun largest item => if largest < item then item else largest) cur := by
  induction xs with
  | nil =>
    intro cur
    exact ⟨Or.inl rfl, le_refl cur, by simp⟩
  | cons b bs ih =>
    intro cur
    simp only [List.foldl_cons]
    by_cases hcb : cur < b
    · rw [if_pos hcb]
      obtain ⟨hm, hc, ha⟩ := ih b
      refine ⟨?_, le_trans (le_of_lt hcb) hc, ?_⟩
      · rcases hm with h1 | h1
        · exact Or.inr (by rw [h1]; exact List.mem_cons_self b bs)
        · exact Or.inr (List.mem_cons_of_mem b h1)
      · intro a hmem
        rcases List.mem_cons.mp hmem with h1 | h1
        · rw [h1]; exact hc
        · exact ha a h1
    · rw [if_neg hcb]
      obtain ⟨hm, hc, ha⟩ := ih cur
      refine ⟨?_, hc, ?_⟩
      · rcases hm with h1 | h1
        · exact Or.inl h1
        · exact Or.inr (List.mem_cons_of_mem b h1)
      · intro a hmem
        rcases List.mem_cons.mp hmem with h1 | h1
        · rw [h1]; exact le_trans (le_of_not_lt hcb) hc
        · exact ha a h1

/-- Characterisation over a linear order: on a non-empty list the scan
returns an element of the list that dominates every element. -/
theorem largest_any_is_max {T : Type} [LinearOrder T] (l : List T) (h : l ≠ []) :
    ∃ m, largest_any l = some m ∧ m ∈ l ∧ ∀ a ∈ l, a ≤ m := by
  cases l with
  | nil => exact absurd rfl h
  | cons x xs =>
    obtain ⟨hm, hc, ha⟩ := foldl_max_invariant xs x
    refine ⟨xs.foldl (fun largest item => if largest < item then item else largest) x,
      largest_any_cons x xs, ?_, ?_⟩
    · rcases hm with h1 | h1
      · rw [h1]; exact List.mem_cons_self x xs
      · exact List.mem_cons_of_mem x h1
    · intro a hmem
      rcases List.mem_cons.mp hmem with h1 | h1
      · rw [h1]; exact hc
      · exact ha a h1

/-- Specification-side definition of `max_of`, written from the spec's
words (section 8) for comparison with the source's scan: sort the
sequence descending and take the first element. -/
def max_of_spec {T : Type} [LinearOrder T] (l : List T) : Option T :=
  (l.insertionSort (fun a b => a ≥ b)).head?

/-- Claim C1: on every non-empty sequence over a linear order, the scan
returns exactly the first element of the sequence sorted in descending
order. -/
theorem largest_any_eq_desc_sort_head {T : Type} [LinearOrder T]
    (l : List T) (h : l ≠ []) :
    largest_any l = max_of_spec l := by
  obtain ⟨m, hm, hmem, hmax⟩ := largest_any_is_max l h
  have hperm : List.Perm (l.insertionSort (fun a b => a ≥ b)) l :=
    List.perm_insertionSort (fun a b => a ≥ b) l
  have hsort : List.Sorted (fun a b => a ≥ b) (l.insertionSort (fun a b => a ≥ b)) :=
    List.sorted_insertionSort (fun a b => a ≥ b) l
  cases hL : l.insertionSort (fun a b => a ≥ b) with
  | nil =>
    rw [hL] at hperm
    exact absurd hperm.symm.eq_nil h
  | cons y ys =>
    rw [hL] at hperm hsort
    have hy : ∀ b ∈ ys, y ≥ b := (List.sorted_cons.mp hsort).1
    have hyl : y ∈ l := hperm.mem_iff.mp (List.mem_cons_self y ys)
    have hml : m ∈ y :: ys := hperm.mem_iff.mpr hmem
    have hmy : m = y := by
      rcases List.mem_cons.mp hml with h1 | h1
      · exact h1
      · exact le_antisymm (hy m h1) (hmax y hyl)
    rw [hm, hmy]
    simp only [max_of_spec]
    rw [hL]
    rfl

/-- Witness for C1 at a concrete integer sequence. -/
theorem largest_any_eq_desc_sort_head_witness :
    largest_any ([3, 1, 2] : List Int) = max_of_spec [3, 1, 2] :=
  largest_any_eq_desc_sort_head [3, 1, 2] (by decide)

/-- Claim C8: the value returned by the scan is invariant under
permutation of the input order. -/
theorem largest_any_perm_invariant {T : Type} [LinearOrder T]
    (l l' : List T) (h : l ≠ []) (hp : l.Perm l') :
    largest_any l = largest_any l' := by
  have h' : l' ≠ [] := by
    intro he
    rw [he] at hp
    exact h hp.eq_nil
  obtain ⟨m, hm, hmem, hmax⟩ := largest_any_is_max l h
  obtain ⟨m', hm', hmem', hmax'⟩ := largest_any_is_max l' h'
  rw [hm, hm']
  exact congrArg some
    (le_antisymm (hmax' m (hp.mem_iff.mp hmem)) (hmax m' (hp.mem_iff.mpr hmem')))

/-- Witness for C8 at a concrete pair of permuted sequences. -/
theorem largest_any_perm_invariant_witness :
    largest_any ([1, 2] : List Int) = largest_any [2, 1] :=
  largest_any_perm_invariant [1, 2] [2, 1] (by decide) (List.Perm.swap 2 1 [])

/-- Carrier used to observe tie-breaking: elements carry a comparison key
and a tag that the comparison ignores, so two distinct elements can tie,
exactly as distinct but `PartialOrd`-equal values can in the source. -/
structure Tagged where
  key : Int
  tag : Nat
deriving DecidableEq

/-- Strict comparison on `Tagged` looks only at the key. -/
instance : LT Tagged :=
  ⟨fun a b => a.key < b.key⟩

instance : DecidableRel ((· < ·) : Tagged → Tagged → Prop) :=
  fun a b => inferInstanceAs (Decidable (a.key < b.key))

/-- Scan invariant on `Tagged`: either nothing beats the initial value's
key and the fold keeps the initial value, or the fold returns the element
at an index whose key beats the initial value and strictly beats every
earlier index, and which no element beats. -/
theorem foldl_first_max (xs : List Tagged) :
    ∀ cur : Tagged,
      (xs.foldl (fun largest item => if largest < item then item else largest) cur = cur
          ∧ ∀ a ∈ xs, a.key ≤ cur.key)
        ∨ ∃ i : Fin xs.length,
            xs.foldl (fun largest item => if largest < item then item else largest) cur
                = xs.get i
              ∧ cur.key < (xs.get i).key
              ∧ (∀ a ∈ xs, a.key ≤ (xs.get i).key)
              ∧ ∀ j : Fin xs.length, j.val < i.val → (xs.get j).key < (xs.get i).key := by
  induction xs with
  | nil =>
    intro cur
    exact Or.inl ⟨rfl, by simp⟩
  | cons b bs ih =>
    intro cur
    simp only [List.foldl_cons]
    by_cases hcb : cur < b
    · have hk : cur.key < b.key := hcb
      rw [if_pos hcb]
      rcases ih b with ⟨heq, hall⟩ | ⟨i, heq, hlt, hall, hfirst⟩
      · refine Or.inr ⟨⟨0, Nat.succ_pos bs.length⟩, heq, hk, ?_, ?_⟩
        · intro a hmem
          rcases List.mem_cons.mp hmem with h1 | h1
          · rw [h1]; exact le_refl b.key
          · exact hall a h1
        · intro j hj
          exact absurd hj (Nat.not_lt_zero j.val)
      · refine Or.inr ⟨⟨i.val + 1, Nat.succ_lt_succ i.isLt⟩, heq,
          lt_trans hk hlt, ?_, ?_⟩
        · intro a hmem
          rcases List.mem_cons.mp hmem with h1 | h1
          · rw [h1]; exact le_of_lt hlt
          · exact hall a h1
        · intro j hj
          rcases j with ⟨jv, hjv⟩
          cases jv with
          | zero => exact hlt
          | succ k =>
            exact hfirst ⟨k, Nat.lt_of_succ_lt_succ hjv⟩ (Nat.lt_of_succ_lt_succ hj)
    · have hk : ¬ cur.key < b.key := hcb
      rw [if_neg hcb]
      rcases ih cur with ⟨heq, hall⟩ | ⟨i, heq, hlt, hall, hfirst⟩
      · refine Or.inl ⟨heq, ?_⟩
        intro a hmem
        rcases List.mem_cons.mp hmem with h1 | h1
        · rw [h1]; exact le_of_not_lt hk
        · exact hall a h1
      · refine Or.inr ⟨⟨i.val + 1, Nat.succ_lt_succ i.isLt⟩, heq, hlt, ?_, ?_⟩
        · intro a hmem
          rcases List.mem_cons.mp hmem with h1 | h1
          · rw [h1]; exact le_of_lt (lt_of_le_of_lt (le_of_not_lt hk) hlt)
          · exact hall a h1
        · intro j hj
          rcases j with ⟨jv, hjv⟩
          cases jv with
          | zero => exact lt_of_le_of_lt (le_of_not_lt hk) hlt
          | succ k =>
            exact hfirst ⟨k, Nat.lt_of_succ_lt_succ hjv⟩ (Nat.lt_of_succ_lt_succ hj)

/-- Claim C3: the scan initialises its running value to the first element
and replaces it only on a strictly greater element, so on sequences whose
elements can tie (distinct `Tagged` values with equal keys) it returns
the element at the least index at which the maximum key is attained. -/
theorem largest_any_first_seen_max (l : List Tagged) (h : l ≠ []) :
    ∃ i : Fin l.length,
      largest_any l = some (l.get i)
        ∧ (∀ j : Fin l.length, (l.get j).key ≤ (l.get i).key)
        ∧ ∀ j : Fin l.length, (l.get i).key ≤ (l.get j).key → i ≤ j := by
  cases l with
  | nil => exact absurd rfl h
  | cons x xs =>
    rw [largest_any_cons]
    rcases foldl_first_max xs x with ⟨heq, hall⟩ | ⟨i, heq, hlt, hall, hfirst⟩
    · refine ⟨⟨0, Nat.succ_pos xs.length⟩, by rw [heq]; rfl, ?_, ?_⟩
      · intro j
        rcases j with ⟨jv, hjv⟩
        cases jv with
        | zero => exact le_refl x.key
        | succ k =>
          exact hall (xs.get ⟨k, Nat.lt_of_succ_lt_succ hjv⟩)
            (List.get_mem xs k (Nat.lt_of_succ_lt_succ hjv))
      · intro j hj
        exact Fin.le_def.mpr (Nat.zero_le j.val)
    · refine ⟨⟨i.val + 1, Nat.succ_lt_succ i.isLt⟩, congrArg some heq, ?_, ?_⟩
      · intro j
        rcases j with ⟨jv, hjv⟩
        cases jv with
        | zero => exact le_of_lt hlt
        | succ k =>
          exact hall (xs.get ⟨k, Nat.lt_of_succ_lt_succ hjv⟩)
            (List.get_mem xs k (Nat.lt_of_succ_lt_succ hjv))
      · intro j hj
        rcases j with ⟨jv, hjv⟩
        cases jv with
        | zero => exact absurd hj (not_le_of_lt hlt)
        | succ k =>
          refine Fin.le_def.mpr (Nat.succ_le_succ ?_)
          rcases Nat.lt_or_ge k i.val with hki | hki
          · exact absurd hj
              (not_le_of_lt (hfirst ⟨k, Nat.lt_of_succ_lt_succ hjv⟩ hki))
          · exact hki

/-- Witness for C3 at a concrete sequence with a tied maximum: the two
elements with key 5 are distinguished by their tags. -/
theorem largest_any_first_seen_max_witness :
    ∃ i : Fin ([Tagged.mk 1 10, Tagged.mk 5 11, Tagged.mk 5 12] : List Tagged).length,
      largest_any [Tagged.mk 1 10, Tagged.mk 5 11, Tagged.mk 5 12]
          = some (([Tagged.mk 1 10, Tagged.mk 5 11, Tagged.mk 5 12] : List Tagged).get i)
        ∧ (∀ j : Fin ([Tagged.mk 1 10, Tagged.mk 5 11, Tagged.mk 5 12] : List Tagged).length,
            (([Tagged.mk 1 10, Tagged.mk 5 11, Tagged.mk 5 12] : List Tagged).get j).key
              ≤ (([Tagged.mk 1 10, Tagged.mk 5 11, Tagged.mk 5 12] : List Tagged).get i).key)
        ∧ ∀ j : Fin ([Tagged.mk 1 10, Tagged.mk 5 11, Tagged.mk 5 12] : List Tagged).length,
            (([Tagged.mk 1 10, Tagged.mk 5 11, Tagged.mk 5 12] : List Tagged).get i).key
                ≤ (([Tagged.mk 1 10, Tagged.mk 5 11, Tagged.mk 5 12] : List Tagged).get j).key
              → i ≤ j :=
  largest_any_first_seen_max [Tagged.mk 1 10, Tagged.mk 5 11, Tagged.mk 5 12]
    (List.cons_ne_nil _ _)
